import Mathlib

/-!
# Album cover choice controller

A shallow embedding of `src/ui/albumcoverchoicecontroller.cpp` (Clementine) and
the properties of its cover-choice operations.

* Qt strings are sequences of UTF-16 code units, written as natural numbers.
* Qt library functions whose result is a table or a platform matter
  (`QString::toLower`, `QString::toUtf8`, the home directory, the list of image
  writers, image decoding) are fields of `Env`; every general theorem holds for
  all of them.  SHA-1 is written out.
* The effects of the controller (requests to the library backend, files
  written) are recorded in `World`.
-/

set_option autoImplicit false
set_option maxRecDepth 100000

namespace Clementine

/-! ## Qt strings -/

/-- A `QChar`: one UTF-16 code unit. -/
abbrev QChar := Nat

/-- A `QString`: a sequence of code units.  The null string `QString()` and the
empty string are both the empty sequence (Qt compares them equal). -/
abbrev QString := List QChar

/-- A `QByteArray`: a sequence of bytes. -/
abbrev QByteArray := List Nat

/-- The `QString` of a literal of the source text. -/
def qstr (s : String) : QString := s.toList.map Char.toNat

/-- The character `'.'`. -/
def kDot : QChar := 46

/-- The character `'/'`. -/
def kSlash : QChar := 47

/-- Qt `QString::isEmpty()`. -/
def QString.isEmpty (s : QString) : Bool := s.length == 0

/-- Qt `QString::right(n)`: the `n` rightmost characters, the whole string when
`n` is at least its size. -/
def QString.right (s : QString) (n : Nat) : QString := s.drop (s.length - n)

/-- Qt `QString::startsWith(QChar)`. -/
def QString.startsWith (s : QString) (c : QChar) : Bool :=
  match s with
  | [] => false
  | x :: _ => x == c

/-- Qt `QString::contains(QChar)`. -/
def QString.contains (s : QString) (c : QChar) : Bool := s.elem c

/-- Qt `QString::split(sep, KeepEmptyParts)`: the fields between the separators,
empty fields included; a string without separator is its only field. -/
def QString.split (sep : QChar) : QString → List QString
  | [] => [[]]
  | c :: cs =>
    if c = sep then [] :: QString.split sep cs
    else
      match QString.split sep cs with
      | [] => [[c]]
      | f :: fs => (c :: f) :: fs

/-- The loop of `QString::section` without flags: `x` is the index of the field
at the head of the list, `ret` the text gathered so far. -/
def QString.sectionLoop (sep : QChar) (start last : Int) :
    Int → List QString → QString → QString
  | _, [], ret => ret
  | x, sec :: rest, ret =>
    if x ≤ last then
      let ret1 := if x ≥ start then (if x > start then ret ++ [sep] else ret) ++ sec else ret
      QString.sectionLoop sep start last (x + 1) rest ret1
    else ret

/-- Qt `QString::section(sep, start, end)` with the default flags: the fields
`start` to `end` joined by `sep`; a negative index counts from the end. -/
def QString.section (s : QString) (sep : QChar) (start last : Int) : QString :=
  let sections := QString.split sep s
  let n : Int := sections.length
  let start1 := if start < 0 then start + n else start
  let last1 := if last < 0 then last + n else last
  QString.sectionLoop sep start1 last1 0 sections []

/-- The text after the last occurrence of `c`, when `c` occurs. -/
def afterLast (c : QChar) : QString → Option QString
  | [] => none
  | x :: xs =>
    match afterLast c xs with
    | some r => some r
    | none => if x = c then some xs else none

/-- Qt `QFileInfo::fileName()` for a `/`-separated path: the text after the last
separator. -/
def QFileInfo.fileName (path : QString) : QString :=
  match afterLast kSlash path with
  | some r => r
  | none => path

/-- Qt `QFileInfo::suffix()`: the characters of the file name after its last
`'.'`, empty when it has none. -/
def QFileInfo.suffix (path : QString) : QString :=
  match afterLast kDot (QFileInfo.fileName path) with
  | some r => r
  | none => []

/-- One hexadecimal digit, lower case. -/
def hexDigit (n : Nat) : QChar := if n < 10 then 48 + n else 87 + n

/-- Qt `QByteArray::toHex()`. -/
def toHex (bytes : QByteArray) : QString :=
  bytes.flatMap (fun b => [hexDigit (b / 16), hexDigit (b % 16)])

/-- The bytes that `QByteArray(const char*)` takes from `constData()`: those
before the first zero byte. -/
def constData (bytes : QByteArray) : QByteArray := bytes.takeWhile (fun b => b != 0)

/-! ## SHA-1 (`QCryptographicHash::Sha1`) -/

/-- Rotation to the left of a 32-bit word. -/
def rotl32 (x n : Nat) : Nat := ((x <<< n) ||| (x >>> (32 - n))) % 2 ^ 32

/-- The `k` low bytes of `v`, most significant first. -/
def bigEndian : Nat → Nat → QByteArray
  | 0, _ => []
  | k + 1, v => (v / 256 ^ k) % 256 :: bigEndian k v

/-- The message followed by the bit `1`, zeros up to 56 modulo 64 bytes, and
its length in bits on eight bytes. -/
def sha1Pad (msg : QByteArray) : QByteArray :=
  msg ++ [128] ++ List.replicate ((119 - msg.length % 64) % 64) 0 ++
    bigEndian 8 (8 * msg.length)

/-- The first `k` big-endian 32-bit words of a block. -/
def wordsOf : Nat → QByteArray → List Nat
  | 0, _ => []
  | k + 1, bs =>
    match bs with
    | b0 :: b1 :: b2 :: b3 :: rest =>
      (((b0 * 256 + b1) * 256 + b2) * 256 + b3) :: wordsOf k rest
    | _ => []

/-- The five working words of SHA-1. -/
structure Sha1State where
  a : Nat
  b : Nat
  c : Nat
  d : Nat
  e : Nat
  deriving DecidableEq, Repr

/-- The round function of round `t`. -/
def sha1F (t b c d : Nat) : Nat :=
  if t < 20 then (b &&& c) ||| ((b ^^^ 4294967295) &&& d)
  else if t < 40 then b ^^^ c ^^^ d
  else if t < 60 then (b &&& c) ||| (b &&& d) ||| (c &&& d)
  else b ^^^ c ^^^ d

/-- The round constant of round `t`. -/
def sha1K (t : Nat) : Nat :=
  if t < 20 then 1518500249
  else if t < 40 then 1859775393
  else if t < 60 then 2400959708
  else 3395469782

/-- The `k` rounds from round `t` on; `w` holds the sixteen words of the
message schedule that start at word `t`. -/
def sha1Rounds : Nat → Nat → List Nat → Sha1State → Sha1State
  | 0, _, _, s => s
  | k + 1, t, w, s =>
    let wt := w.getD 0 0
    let next := rotl32 (w.getD 13 0 ^^^ w.getD 8 0 ^^^ w.getD 2 0 ^^^ wt) 1
    let temp := (rotl32 s.a 5 + sha1F t s.b s.c s.d + s.e + sha1K t + wt) % 2 ^ 32
    sha1Rounds k (t + 1) (w.drop 1 ++ [next]) ⟨temp, s.a, rotl32 s.b 30, s.c, s.d⟩

/-- The compression of one block of 64 bytes. -/
def sha1Block (h : Sha1State) (block : QByteArray) : Sha1State :=
  let s := sha1Rounds 80 0 (wordsOf 16 block) h
  ⟨(h.a + s.a) % 2 ^ 32, (h.b + s.b) % 2 ^ 32, (h.c + s.c) % 2 ^ 32,
   (h.d + s.d) % 2 ^ 32, (h.e + s.e) % 2 ^ 32⟩

/-- The compression of `k` blocks in turn. -/
def sha1Blocks : Nat → QByteArray → Sha1State → Sha1State
  | 0, _, h => h
  | k + 1, bs, h => sha1Blocks k (bs.drop 64) (sha1Block h (bs.take 64))

/-- The SHA-1 digest, twenty bytes. -/
def sha1 (msg : QByteArray) : QByteArray :=
  let padded := sha1Pad msg
  let h := sha1Blocks (padded.length / 64) padded
    ⟨1732584193, 4023233417, 2562383102, 271733878, 3285377520⟩
  bigEndian 4 h.a ++ bigEndian 4 h.b ++ bigEndian 4 h.c ++ bigEndian 4 h.d ++ bigEndian 4 h.e

/-! ## Collaborators -/

/-- A `QUrl`, by the two observations the controller makes of it. -/
structure QUrl where
  isEmpty : Bool
  toLocalFile : QString
  deriving DecidableEq, Repr

/-- A `QImage`: null or not, and its pixels. -/
structure QImage where
  isNull : Bool
  pixels : List Nat
  deriving DecidableEq, Repr

/-- Modelled from the spec: the `Song` type, declared outside the given source.
It carries artist, album, title, a URL, an automatic art path, a manual art
path, an embedded-cover flag, a validity flag and an identity. -/
structure Song where
  is_valid : Bool
  id : Int
  title : QString
  artist : QString
  album : QString
  url : QUrl
  art_automatic : QString
  art_manual : QString
  has_embedded_cover : Bool
  deriving DecidableEq, Repr

/-- Modelled from the spec: the mutator `set_art_manual(path)` of `Song`, which
writes the manual art path and nothing else. -/
def Song.set_art_manual (song : Song) (v : QString) : Song :=
  { song with art_manual := v }

/-- A call `UpdateManualAlbumArtAsync(artist, album, art)` on the backend. -/
structure UpdateRequest where
  artist : QString
  album : QString
  art : QString
  deriving DecidableEq, Repr

/-- An operation on the file system. -/
inductive FileOp where
  | mkdir (dir : QString)
  | save (path : QString) (image : QImage) (format : Option QString)
  deriving DecidableEq, Repr

/-- The library code and platform the controller runs on. -/
structure Env where
  /-- Value of `QString::toLower()`. -/
  toLower : QString → QString
  /-- Value of `QString::toUtf8()`. -/
  toUtf8 : QString → QByteArray
  /-- Value of `AlbumCoverLoader::ImageCacheDir()`. -/
  imageCacheDir : QString
  /-- Value of `QDir::home().absolutePath()`. -/
  homePath : QString
  /-- Value of `QImageWriter::supportedImageFormats()`. -/
  supportedImageFormats : List QByteArray
  /-- Value of `QImage(path)`: the image decoded from a file, null when it
  cannot be. -/
  loadImage : QString → QImage
  /-- Value of `Song::kManuallyUnsetCover`. -/
  kManuallyUnsetCover : QString
  /-- Value of `tr("Unknown")`. -/
  trUnknown : QString

/-- What the controller acts on: the requests received by the library backend
(`none` while `library_` is `NULL`) and the operations made on the file system,
oldest first. -/
structure World where
  library_ : Option (List UpdateRequest)
  files : List FileOp
  deriving DecidableEq, Repr

/-! ## The controller -/

/-- The ten suffixes put in `sImageExtensions`. -/
def kImageExtensions : List QString :=
  [qstr "png", qstr "jpg", qstr "jpeg", qstr "bmp", qstr "gif", qstr "xpm",
   qstr "pbm", qstr "pgm", qstr "ppm", qstr "xbm"]

/-- Method `IsKnownImageExtension` with the static `sImageExtensions` made explicit:
the set is created when the pointer is null, then asked for the suffix. -/
def IsKnownImageExtensionStatic (sImageExtensions : Option (List QString))
    (suffix : QString) : Bool × Option (List QString) :=
  let set :=
    match sImageExtensions with
    | none => kImageExtensions
    | some s => s
  (set.contains suffix, some set)

/-- Method `AlbumCoverChoiceController::IsKnownImageExtension`.  The static set is
written by this function alone and always with the same ten strings, so the
answer is that of a membership test in them (`isKnown_static_null`,
`isKnown_static_set`). -/
def IsKnownImageExtension (suffix : QString) : Bool := kImageExtensions.contains suffix

/-- Method `AlbumCoverChoiceController::CanAcceptDrag`, on the URLs of the event. -/
def CanAcceptDrag (env : Env) : List QUrl → Bool
  | [] => false
  | url :: rest =>
    let suffix := env.toLower (QFileInfo.suffix url.toLocalFile)
    if IsKnownImageExtension suffix then true else CanAcceptDrag env rest

/-- Method `AlbumCoverChoiceController::SaveCover(Song*, const QString&)`.  The result
is `none` when the call reaches `library_->…` with a null `library_`. -/
def SaveCover (w : World) (song : Song) (cover : QString) : Option (Song × World) :=
  if song.is_valid && song.id != -1 then
    let song1 := song.set_art_manual cover
    match w.library_ with
    | none => none
    | some requests =>
      some (song1, { w with library_ := some (requests ++ [⟨song1.artist, song1.album, cover⟩]) })
  else some (song, w)

/-- Method `AlbumCoverChoiceController::SaveCover(Song*, const QDropEvent*)`, on the
URLs of the event. -/
def SaveCoverDrop (env : Env) (w : World) (song : Song) :
    List QUrl → Option (QString × Song × World)
  | [] => some ([], song, w)
  | url :: rest =>
    let filename := url.toLocalFile
    let suffix := env.toLower (QFileInfo.suffix filename)
    if IsKnownImageExtension suffix then
      (SaveCover w song filename).map (fun r => (filename, r.1, r.2))
    else SaveCoverDrop env w song rest

/-- Method `AlbumCoverChoiceController::UnsetCover`. -/
def UnsetCover (env : Env) (w : World) (song : Song) : Option (QString × Song × World) :=
  let cover := env.kManuallyUnsetCover
  (SaveCover w song cover).map (fun r => (cover, r.1, r.2))

/-- Method `AlbumCoverChoiceController::GetInitialPathForFileDialog`. -/
def GetInitialPathForFileDialog (env : Env) (song : Song) (filename : QString) : QString :=
  if !QString.isEmpty song.art_automatic && !song.has_embedded_cover then
    song.art_automatic
  else if !song.url.isEmpty && QString.contains song.url.toLocalFile kSlash then
    QString.section song.url.toLocalFile kSlash 0 (-2) ++ filename
  else
    env.homePath ++ filename

/-- Method `AlbumCoverChoiceController::LoadCoverFromFile`.  The open dialog is the
function from the path it starts at to the user's choice, `none` when the user
cancels. -/
def LoadCoverFromFile (env : Env) (w : World) (song : Song)
    (getOpenFileName : QString → Option QString) : Option (QString × Song × World) :=
  match getOpenFileName (GetInitialPathForFileDialog env song []) with
  | none => some ([], song, w)
  | some cover =>
    let image := env.loadImage cover
    if !image.isNull then
      (SaveCover w song cover).map (fun r => (cover, r.1, r.2))
    else some ([], song, w)

/-- The file name `SaveCoverToFile` saves to, from the one chosen. -/
def saveFileName (env : Env) (save_filename : QString) : QString :=
  let extension := QString.right save_filename 4
  if !QString.startsWith extension kDot ||
      !env.supportedImageFormats.contains (env.toUtf8 (QString.right extension 3)) then
    save_filename ++ qstr ".jpg"
  else save_filename

/-- The local `initial_file_name` of `SaveCoverToFile`: `/`, the album or
`tr("Unknown")` when the song has none, and `.jpg`. -/
def initial_file_name (env : Env) (song : Song) : QString :=
  qstr "/" ++ (if QString.isEmpty song.album then env.trUnknown else song.album) ++
    qstr ".jpg"

/-- Method `AlbumCoverChoiceController::SaveCoverToFile`.  The save dialog is the
function from the path it starts at to the user's choice, `none` when the user
cancels.  The result is the song as the caller has it after the call (a
`const Song&` in the source) and the world. -/
def SaveCoverToFile (env : Env) (w : World) (song : Song) (image : QImage)
    (getSaveFileName : QString → Option QString) : Song × World :=
  match getSaveFileName (GetInitialPathForFileDialog env song (initial_file_name env song)) with
  | none => (song, w)
  | some save_filename =>
    (song, { w with files := w.files ++ [FileOp.save (saveFileName env save_filename) image none] })

/-- The bytes hashed by `SaveCoverInCache`: two `addData` calls, each given the
`constData()` of the UTF-8 form of a lowercased string. -/
def hashInput (env : Env) (artist album : QString) : QByteArray :=
  constData (env.toUtf8 (env.toLower artist)) ++ constData (env.toUtf8 (env.toLower album))

/-- Method `AlbumCoverChoiceController::SaveCoverInCache`. -/
def SaveCoverInCache (env : Env) (w : World) (artist album : QString) (image : QImage) :
    QString × World :=
  let filename := toHex (sha1 (hashInput env artist album)) ++ qstr ".jpg"
  let path := env.imageCacheDir ++ qstr "/" ++ filename
  (path, { w with files := w.files ++
    [FileOp.mkdir env.imageCacheDir, FileOp.save path image (some (qstr "JPG"))] })

/-- The fields `fields`, each preceded by the separator. -/
def joinTail (sep : QChar) : List QString → QString
  | [] => []
  | f :: fs => sep :: f ++ joinTail sep fs

/-- The image last saved at `path` by the operations `ops`, each save taken to
succeed. -/
def lastSaved (path : QString) : List FileOp → Option QImage
  | [] => none
  | FileOp.mkdir _ :: ops => lastSaved path ops
  | FileOp.save p image _ :: ops =>
    match lastSaved path ops with
    | some later => some later
    | none => if p = path then some image else none

/-! ## An environment to evaluate in -/

/-- Lowercasing of the letters `A` to `Z`; `QString::toLower` on ASCII text. -/
def asciiToLower (s : QString) : QString :=
  s.map (fun c => if 65 ≤ c ∧ c ≤ 90 then c + 32 else c)

/-- The UTF-8 bytes of a code point. -/
def utf8OfCodePoint (v : Nat) : QByteArray :=
  if v < 128 then [v]
  else if v < 2048 then [192 + v / 64, 128 + v % 64]
  else if v < 65536 then [224 + v / 4096, 128 + v / 64 % 64, 128 + v % 64]
  else [240 + v / 262144, 128 + v / 4096 % 64, 128 + v / 64 % 64, 128 + v % 64]

/-- The UTF-8 form of UTF-16 text; a surrogate pair is one code point. -/
def utf16ToUtf8 : QString → QByteArray
  | [] => []
  | [u] => utf8OfCodePoint u
  | hi :: lo :: rest =>
    if 55296 ≤ hi ∧ hi < 56320 ∧ 56320 ≤ lo ∧ lo < 57344 then
      utf8OfCodePoint (65536 + (hi - 55296) * 1024 + (lo - 56320)) ++ utf16ToUtf8 rest
    else utf8OfCodePoint hi ++ utf16ToUtf8 (lo :: rest)

/-- A Unix desktop: ASCII lowercasing, the writers Qt ships by default, a disk
on which `/music/abba/folder.png` is an image and nothing else is. -/
def desktop : Env where
  toLower := asciiToLower
  toUtf8 := utf16ToUtf8
  imageCacheDir := qstr "/home/user/.config/Clementine/albumcovers"
  homePath := qstr "/home/user"
  supportedImageFormats :=
    [qstr "bmp", qstr "jpg", qstr "jpeg", qstr "png", qstr "ppm", qstr "tiff",
     qstr "xbm", qstr "xpm"]
  loadImage := fun path =>
    if path = qstr "/music/abba/folder.png" then ⟨false, [1, 2, 3]⟩ else ⟨true, []⟩
  kManuallyUnsetCover := qstr "(unset)"
  trUnknown := qstr "Unknown"

/-- A song of the library. -/
def librarySong : Song where
  is_valid := true
  id := 7
  title := qstr "Waterloo"
  artist := qstr "ABBA"
  album := qstr "Gold"
  url := ⟨false, qstr "/music/abba/waterloo.mp3"⟩
  art_automatic := []
  art_manual := []
  has_embedded_cover := false

/-- A song that is not in the library: valid, without identity. -/
def looseSong : Song := { librarySong with id := -1 }

/-- An image. -/
def coverA : QImage := ⟨false, [1, 2, 3]⟩

/-- Another image. -/
def coverB : QImage := ⟨false, [4, 5, 6]⟩

/-- A controller whose library is set, before any request. -/
def freshWorld : World := ⟨some [], []⟩

/-! ## The extension set -/

/-- With the static pointer null, `IsKnownImageExtension` creates the ten-string
set and answers from it. -/
theorem isKnown_static_null (suffix : QString) :
    IsKnownImageExtensionStatic none suffix =
      (IsKnownImageExtension suffix, some kImageExtensions) := rfl

/-- With the static set already created, `IsKnownImageExtension` answers from it
and leaves it as it is. -/
theorem isKnown_static_set (suffix : QString) :
    IsKnownImageExtensionStatic (some kImageExtensions) suffix =
      (IsKnownImageExtension suffix, some kImageExtensions) := rfl

theorem isKnown_iff_mem (s : QString) :
    IsKnownImageExtension s = true ↔ s ∈ kImageExtensions := by
  simp [IsKnownImageExtension]

/-- C1, as the claim states it, fails: `"PNG"` and `"Jpeg"` lowercase to members
of the ten-string set, yet `IsKnownImageExtension` itself rejects both; the
test is an exact comparison. -/
theorem isKnownImageExtension_rejects_upper_case :
    desktop.toLower (qstr "PNG") ∈ kImageExtensions ∧
    IsKnownImageExtension (qstr "PNG") = false ∧
    desktop.toLower (qstr "Jpeg") ∈ kImageExtensions ∧
    IsKnownImageExtension (qstr "Jpeg") = false := by
  decide

/-- C1, amended: `IsKnownImageExtension s` holds exactly when `s`, as given, is
one of the ten strings png, jpg, jpeg, bmp, gif, xpm, pbm, pgm, ppm, xbm; so
`"tiff"` is rejected, and a lowercased suffix, which is what both callers pass,
is accepted exactly when it is one of the ten. -/
theorem isKnownImageExtension_exact :
    (∀ s : QString, IsKnownImageExtension s = true ↔
      (s = qstr "png" ∨ s = qstr "jpg" ∨ s = qstr "jpeg" ∨ s = qstr "bmp" ∨
       s = qstr "gif" ∨ s = qstr "xpm" ∨ s = qstr "pbm" ∨ s = qstr "pgm" ∨
       s = qstr "ppm" ∨ s = qstr "xbm")) ∧
    IsKnownImageExtension (qstr "tiff") = false ∧
    (∀ (env : Env) (s : QString), IsKnownImageExtension (env.toLower s) = true ↔
      env.toLower s ∈ kImageExtensions) := by
  refine ⟨fun s => ?_, by decide, fun env s => isKnown_iff_mem _⟩
  rw [isKnown_iff_mem]
  simp [kImageExtensions]

/-! ## Saving a cover path -/

theorem saveCover_saved (requests : List UpdateRequest) (files : List FileOp) (song : Song)
    (cover : QString) (h : song.is_valid = true ∧ song.id ≠ -1) :
    SaveCover ⟨some requests, files⟩ song cover =
      some (song.set_art_manual cover,
        ⟨some (requests ++ [⟨song.artist, song.album, cover⟩]), files⟩) := by
  simp [SaveCover, h.1, h.2, Song.set_art_manual]

theorem saveCover_skipped (w : World) (song : Song) (cover : QString)
    (h : ¬ (song.is_valid = true ∧ song.id ≠ -1)) :
    SaveCover w song cover = some (song, w) := by
  have h1 : (song.is_valid && song.id != -1) = false := by
    by_cases hv : song.is_valid = true
    · have hid : song.id = -1 := by
        by_contra hne
        exact h ⟨hv, hne⟩
      simp [hid]
    · simp [hv]
  simp [SaveCover, h1]

/-- With no library set, saving to a song of the library dereferences the null
`library_`. -/
theorem saveCover_null_library (files : List FileOp) (song : Song) (cover : QString)
    (h : song.is_valid = true ∧ song.id ≠ -1) :
    SaveCover ⟨none, files⟩ song cover = none := by
  simp [SaveCover, h.1, h.2]

/-- C2: on a controller whose library is set, `SaveCover(song, path)` changes
state exactly when the song is valid and its id is not -1.  Then the song's
`art_manual` becomes `path`, each other field keeps its value, and the backend
receives exactly one more request, `UpdateManualAlbumArtAsync(artist, album,
path)`; otherwise song, backend and files are as before. -/
theorem saveCover_frame (requests : List UpdateRequest) (files : List FileOp) (song : Song)
    (path : QString) :
    (song.is_valid = true ∧ song.id ≠ -1 →
      ∃ song1 : Song,
        SaveCover ⟨some requests, files⟩ song path =
          some (song1, ⟨some (requests ++ [⟨song.artist, song.album, path⟩]), files⟩) ∧
        song1.art_manual = path ∧
        song1.is_valid = song.is_valid ∧ song1.id = song.id ∧ song1.title = song.title ∧
        song1.artist = song.artist ∧ song1.album = song.album ∧ song1.url = song.url ∧
        song1.art_automatic = song.art_automatic ∧
        song1.has_embedded_cover = song.has_embedded_cover) ∧
    (¬ (song.is_valid = true ∧ song.id ≠ -1) →
      SaveCover ⟨some requests, files⟩ song path = some (song, ⟨some requests, files⟩)) := by
  refine ⟨fun h => ⟨song.set_art_manual path, saveCover_saved requests files song path h, ?_⟩,
    fun h => saveCover_skipped _ song path h⟩
  simp [Song.set_art_manual]

/-- C2 at a song of the library and at a song without identity. -/
theorem saveCover_frame_witness :
    (∃ song1 : Song,
      SaveCover freshWorld librarySong (qstr "/music/abba/folder.png") =
        some (song1, ⟨some [⟨qstr "ABBA", qstr "Gold", qstr "/music/abba/folder.png"⟩], []⟩) ∧
      song1.art_manual = qstr "/music/abba/folder.png") ∧
    SaveCover freshWorld looseSong (qstr "/music/abba/folder.png") =
      some (looseSong, freshWorld) := by
  constructor
  · obtain ⟨song1, h1, h2, _⟩ :=
      (saveCover_frame [] [] librarySong (qstr "/music/abba/folder.png")).1 (by decide)
    exact ⟨song1, h1, h2⟩
  · exact (saveCover_frame [] [] looseSong (qstr "/music/abba/folder.png")).2 (by decide)

/-! ## Drag and drop -/

/-- C4: `CanAcceptDrag` answers true exactly when some dragged URL has a local
file whose suffix, lowercased, is one of the known image extensions; for no
URL at all it answers false. -/
theorem canAcceptDrag_iff (env : Env) (urls : List QUrl) :
    (CanAcceptDrag env urls = true ↔
      ∃ url ∈ urls, env.toLower (QFileInfo.suffix url.toLocalFile) ∈ kImageExtensions) ∧
    CanAcceptDrag env [] = false := by
  refine ⟨?_, rfl⟩
  induction urls with
  | nil => simp [CanAcceptDrag]
  | cons url rest ih =>
    by_cases h : IsKnownImageExtension (env.toLower (QFileInfo.suffix url.toLocalFile)) = true
    · have hm := (isKnown_iff_mem _).1 h
      simp [CanAcceptDrag, h, hm]
    · have hm : env.toLower (QFileInfo.suffix url.toLocalFile) ∉ kImageExtensions :=
        fun hm => h ((isKnown_iff_mem _).2 hm)
      simp [CanAcceptDrag, h, hm, ih]

theorem saveCoverDrop_skip (env : Env) (w : World) (song : Song) (pre rest : List QUrl)
    (hpre : ∀ u ∈ pre, env.toLower (QFileInfo.suffix u.toLocalFile) ∉ kImageExtensions) :
    SaveCoverDrop env w song (pre ++ rest) = SaveCoverDrop env w song rest := by
  induction pre with
  | nil => rfl
  | cons u pre ih =>
    have hu : IsKnownImageExtension (env.toLower (QFileInfo.suffix u.toLocalFile)) = false := by
      have := hpre u (by simp)
      rw [← isKnown_iff_mem] at this
      simpa using this
    have ih1 := ih (fun v hv => hpre v (by simp [hv]))
    simp [SaveCoverDrop, hu, ih1]

theorem saveCoverDrop_hit (env : Env) (w : World) (song : Song) (url : QUrl) (rest : List QUrl)
    (h : env.toLower (QFileInfo.suffix url.toLocalFile) ∈ kImageExtensions) :
    SaveCoverDrop env w song (url :: rest) =
      (SaveCover w song url.toLocalFile).map (fun r => (url.toLocalFile, r.1, r.2)) := by
  have hu := (isKnown_iff_mem _).2 h
  simp [SaveCoverDrop, hu]

/-- C5, as the claim states it, fails: dropping `a.txt` and `b.jpeg` on a song
without identity returns the path of `b.jpeg`, but the song's manual art is not
set to it. -/
theorem saveCoverDrop_song_not_in_library :
    SaveCoverDrop desktop freshWorld looseSong
        [⟨false, qstr "/tmp/a.txt"⟩, ⟨false, qstr "/tmp/b.jpeg"⟩] =
      some (qstr "/tmp/b.jpeg", looseSong, freshWorld) ∧
    looseSong.art_manual ≠ qstr "/tmp/b.jpeg" := by
  decide

/-- C5, amended: on a controller whose library is set, `SaveCover(song,
dropEvent)` returns the local path, as it is, of the first URL in list order
whose lowercased suffix is a known image extension; when the song is valid with
an id other than -1 its manual art is set to that path and one backend request
is made for it, otherwise song and backend are unchanged.  When no URL has a
known extension it returns the empty string and changes nothing. -/
theorem saveCoverDrop_first_known (env : Env) (requests : List UpdateRequest)
    (files : List FileOp) (song : Song) (urls : List QUrl) :
    (∀ (pre : List QUrl) (url : QUrl) (post : List QUrl),
      urls = pre ++ url :: post →
      (∀ u ∈ pre, env.toLower (QFileInfo.suffix u.toLocalFile) ∉ kImageExtensions) →
      env.toLower (QFileInfo.suffix url.toLocalFile) ∈ kImageExtensions →
      (song.is_valid = true ∧ song.id ≠ -1 →
        SaveCoverDrop env ⟨some requests, files⟩ song urls =
          some (url.toLocalFile, song.set_art_manual url.toLocalFile,
            ⟨some (requests ++ [⟨song.artist, song.album, url.toLocalFile⟩]), files⟩)) ∧
      (¬ (song.is_valid = true ∧ song.id ≠ -1) →
        SaveCoverDrop env ⟨some requests, files⟩ song urls =
          some (url.toLocalFile, song, ⟨some requests, files⟩))) ∧
    ((∀ u ∈ urls, env.toLower (QFileInfo.suffix u.toLocalFile) ∉ kImageExtensions) →
      SaveCoverDrop env ⟨some requests, files⟩ song urls =
        some ([], song, ⟨some requests, files⟩)) := by
  constructor
  · intro pre url post hurls hpre hurl
    subst hurls
    rw [saveCoverDrop_skip env _ song pre _ hpre, saveCoverDrop_hit env _ song url post hurl]
    constructor
    · intro hs
      rw [saveCover_saved requests files song _ hs]
      rfl
    · intro hs
      rw [saveCover_skipped _ song _ hs]
      rfl
  · intro hall
    have := saveCoverDrop_skip env ⟨some requests, files⟩ song urls [] hall
    simpa [SaveCoverDrop] using this

/-- C5 at the URLs `a.txt`, `b.jpeg` dropped on a song of the library. -/
theorem saveCoverDrop_first_known_witness :
    SaveCoverDrop desktop freshWorld librarySong
        [⟨false, qstr "/tmp/a.txt"⟩, ⟨false, qstr "/tmp/b.jpeg"⟩] =
      some (qstr "/tmp/b.jpeg", librarySong.set_art_manual (qstr "/tmp/b.jpeg"),
        ⟨some [⟨qstr "ABBA", qstr "Gold", qstr "/tmp/b.jpeg"⟩], []⟩) :=
  ((saveCoverDrop_first_known desktop [] [] librarySong
      [⟨false, qstr "/tmp/a.txt"⟩, ⟨false, qstr "/tmp/b.jpeg"⟩]).1
    [⟨false, qstr "/tmp/a.txt"⟩] ⟨false, qstr "/tmp/b.jpeg"⟩ [] (by decide) (by decide)
    (by decide)).1 (by decide)

/-! ## Unsetting the cover -/

/-- C6, as the claim states it, fails: for a song without identity `UnsetCover`
returns the sentinel, but the song's manual cover stays what it was and the
backend receives no request. -/
theorem unsetCover_song_not_in_library :
    UnsetCover desktop freshWorld looseSong =
      some (desktop.kManuallyUnsetCover, looseSong, freshWorld) ∧
    looseSong.art_manual ≠ desktop.kManuallyUnsetCover ∧
    freshWorld.library_ = some [] := by
  decide

/-- C6, amended: on a controller whose library is set, `UnsetCover` returns
`Song::kManuallyUnsetCover` for every song; when the song is valid with an id
other than -1 its manual cover becomes the sentinel and one backend update with
the sentinel is requested, otherwise song and backend are unchanged. -/
theorem unsetCover_result (env : Env) (requests : List UpdateRequest) (files : List FileOp)
    (song : Song) :
    (song.is_valid = true ∧ song.id ≠ -1 →
      UnsetCover env ⟨some requests, files⟩ song =
        some (env.kManuallyUnsetCover, song.set_art_manual env.kManuallyUnsetCover,
          ⟨some (requests ++ [⟨song.artist, song.album, env.kManuallyUnsetCover⟩]), files⟩)) ∧
    (¬ (song.is_valid = true ∧ song.id ≠ -1) →
      UnsetCover env ⟨some requests, files⟩ song =
        some (env.kManuallyUnsetCover, song, ⟨some requests, files⟩)) := by
  constructor
  · intro hs
    simp only [UnsetCover]
    rw [saveCover_saved requests files song _ hs]
    rfl
  · intro hs
    simp only [UnsetCover]
    rw [saveCover_skipped _ song _ hs]
    rfl

/-- C6 at a song of the library. -/
theorem unsetCover_result_witness :
    UnsetCover desktop freshWorld librarySong =
      some (qstr "(unset)", librarySong.set_art_manual (qstr "(unset)"),
        ⟨some [⟨qstr "ABBA", qstr "Gold", qstr "(unset)"⟩], []⟩) :=
  (unsetCover_result desktop [] [] librarySong).1 (by decide)

/-! ## Loading a cover from a file -/

/-- C9: `LoadCoverFromFile` returns the empty string, leaves the song as it is
and makes no backend request when the user cancels the dialog or the chosen
file does not decode; when the file decodes it returns the chosen path itself
and the song and backend are what `SaveCover` makes of them for that path. -/
theorem loadCoverFromFile_result (env : Env) (w : World) (song : Song)
    (getOpenFileName : QString → Option QString) :
    (getOpenFileName (GetInitialPathForFileDialog env song []) = none →
      LoadCoverFromFile env w song getOpenFileName = some ([], song, w)) ∧
    (∀ cover : QString,
      getOpenFileName (GetInitialPathForFileDialog env song []) = some cover →
      (env.loadImage cover).isNull = true →
      LoadCoverFromFile env w song getOpenFileName = some ([], song, w)) ∧
    (∀ cover : QString,
      getOpenFileName (GetInitialPathForFileDialog env song []) = some cover →
      (env.loadImage cover).isNull = false →
      LoadCoverFromFile env w song getOpenFileName =
        (SaveCover w song cover).map (fun r => (cover, r.1, r.2))) := by
  refine ⟨fun h => ?_, fun cover h hn => ?_, fun cover h hn => ?_⟩
  · simp [LoadCoverFromFile, h]
  · simp [LoadCoverFromFile, h, hn]
  · simp [LoadCoverFromFile, h, hn]

/-- C9 for a user who cancels, one who picks a text file, and one who picks an
image. -/
theorem loadCoverFromFile_result_witness :
    LoadCoverFromFile desktop freshWorld librarySong (fun _ => none) =
      some ([], librarySong, freshWorld) ∧
    LoadCoverFromFile desktop freshWorld librarySong (fun _ => some (qstr "/music/notes.txt")) =
      some ([], librarySong, freshWorld) ∧
    LoadCoverFromFile desktop freshWorld librarySong
        (fun _ => some (qstr "/music/abba/folder.png")) =
      some (qstr "/music/abba/folder.png",
        librarySong.set_art_manual (qstr "/music/abba/folder.png"),
        ⟨some [⟨qstr "ABBA", qstr "Gold", qstr "/music/abba/folder.png"⟩], []⟩) := by
  refine ⟨(loadCoverFromFile_result desktop freshWorld librarySong (fun _ => none)).1 rfl,
    (loadCoverFromFile_result desktop freshWorld librarySong
      (fun _ => some (qstr "/music/notes.txt"))).2.1 (qstr "/music/notes.txt") rfl (by decide),
    ?_⟩
  exact ((loadCoverFromFile_result desktop freshWorld librarySong
    (fun _ => some (qstr "/music/abba/folder.png"))).2.2 (qstr "/music/abba/folder.png") rfl
    (by decide)).trans (by decide)

/-! ## The cache path -/

/-- The SHA-1 above gives the digests of the standard test messages `abc` and
the empty message. -/
theorem sha1_test_vectors :
    toHex (sha1 (qstr "abc")) = qstr "a9993e364706816aba3e25717850c26c9cd0d89d" ∧
    toHex (sha1 []) = qstr "da39a3ee5e6b4b0d3255bfef95601890afd80709" := by
  decide

theorem saveCoverInCache_path (env : Env) (w : World) (artist album : QString)
    (image : QImage) :
    (SaveCoverInCache env w artist album image).1 =
      env.imageCacheDir ++ qstr "/" ++ toHex (sha1 (hashInput env artist album)) ++
        qstr ".jpg" := by
  simp [SaveCoverInCache]

theorem constData_of_no_zero (bytes : QByteArray) (h : 0 ∉ bytes) : constData bytes = bytes := by
  unfold constData
  rw [List.takeWhile_eq_self_iff]
  intro b hb
  have : b ≠ 0 := fun h0 => h (h0 ▸ hb)
  simpa using this

theorem lastSaved_append_save (path : QString) (ops : List FileOp) (image : QImage)
    (format : Option QString) :
    lastSaved path (ops ++ [FileOp.save path image format]) = some image := by
  induction ops with
  | nil => simp [lastSaved]
  | cons op ops ih =>
    cases op with
    | mkdir d => simpa [lastSaved] using ih
    | save p i f => simp [lastSaved, ih]

/-- C7: the path is to be the cache directory, `/`, the hexadecimal SHA-1 of the
lowercased artist followed by the lowercased album, and `.jpg`.  For the artist
`a`, U+0000, `b` and the album `c` the code does not give it: the file name is
the SHA-1 of `ac`, because `addData` receives the `constData()` of the key, a C
string that ends at the first zero byte, and the rest of the artist is never
hashed. -/
theorem saveCoverInCache_key_ends_at_zero :
    (SaveCoverInCache desktop freshWorld [97, 0, 98] (qstr "c") coverA).1 =
      desktop.imageCacheDir ++ qstr "/" ++ toHex (sha1 (desktop.toUtf8 (qstr "ac"))) ++
        qstr ".jpg" ∧
    (SaveCoverInCache desktop freshWorld [97, 0, 98] (qstr "c") coverA).1 ≠
      desktop.imageCacheDir ++ qstr "/" ++
        toHex (sha1 (desktop.toUtf8 (desktop.toLower [97, 0, 98]) ++
          desktop.toUtf8 (desktop.toLower (qstr "c")))) ++ qstr ".jpg" := by
  decide

/-- Determinism of the cache path: when two artist and album pairs have equal
lowercased artists and equal lowercased albums, `SaveCoverInCache` returns the
same path for both, whatever the images and the world.  The path is the cache
directory, `/`, the hexadecimal SHA-1 of the bytes added to the hash, and
`.jpg`; when neither UTF-8 form has a zero byte the bytes added are the whole
lowercased artist followed by the whole lowercased album. -/
theorem saveCoverInCache_deterministic (env : Env) (w1 w2 : World)
    (a1 b1 a2 b2 : QString) (image1 image2 : QImage)
    (ha : env.toLower a1 = env.toLower a2) (hb : env.toLower b1 = env.toLower b2) :
    (SaveCoverInCache env w1 a1 b1 image1).1 = (SaveCoverInCache env w2 a2 b2 image2).1 ∧
    (SaveCoverInCache env w1 a1 b1 image1).1 =
      env.imageCacheDir ++ qstr "/" ++
        toHex (sha1 ((env.toUtf8 (env.toLower a1)).takeWhile (fun b => b != 0) ++
          (env.toUtf8 (env.toLower b1)).takeWhile (fun b => b != 0))) ++ qstr ".jpg" ∧
    (0 ∉ env.toUtf8 (env.toLower a1) → 0 ∉ env.toUtf8 (env.toLower b1) →
      (SaveCoverInCache env w1 a1 b1 image1).1 =
        env.imageCacheDir ++ qstr "/" ++
          toHex (sha1 (env.toUtf8 (env.toLower a1) ++ env.toUtf8 (env.toLower b1))) ++
          qstr ".jpg") := by
  refine ⟨?_, ?_, fun h1 h2 => ?_⟩
  · simp [SaveCoverInCache, hashInput, ha, hb]
  · simp [SaveCoverInCache, hashInput, constData]
  · rw [saveCoverInCache_path, hashInput, constData_of_no_zero _ h1, constData_of_no_zero _ h2]

/-- The cache path at `ABBA`, `Gold` and `abba`, `GOLD`. -/
theorem saveCoverInCache_deterministic_witness :
    (SaveCoverInCache desktop freshWorld (qstr "ABBA") (qstr "Gold") coverA).1 =
      (SaveCoverInCache desktop freshWorld (qstr "abba") (qstr "GOLD") coverB).1 ∧
    (SaveCoverInCache desktop freshWorld (qstr "ABBA") (qstr "Gold") coverA).1 =
      qstr "/home/user/.config/Clementine/albumcovers/" ++
        toHex (sha1 (desktop.toUtf8 (qstr "abbagold"))) ++ qstr ".jpg" :=
  ⟨(saveCoverInCache_deterministic desktop freshWorld freshWorld (qstr "ABBA") (qstr "Gold")
    (qstr "abba") (qstr "GOLD") coverA coverB (by decide) (by decide)).1,
   ((saveCoverInCache_deterministic desktop freshWorld freshWorld (qstr "ABBA") (qstr "Gold")
    (qstr "abba") (qstr "GOLD") coverA coverB (by decide) (by decide)).2.2 (by decide)
    (by decide)).trans (by decide)⟩

/-- C10: the path computed by `SaveCoverInCache` is a function of the bytes
added to the hash, which are the bytes taken from the lowercased artist
followed at once, with nothing between, by the bytes taken from the lowercased
album.  The pairs `ab`, `c` and `a`, `bc` differ even without regard to case,
the bytes hashed for both are `abc`, the two paths are equal for every world
and image, and after both saves the file at that path holds the second
image. -/
theorem saveCoverInCache_no_separator :
    (∀ (env : Env) (w1 w2 : World) (a1 b1 a2 b2 : QString) (image1 image2 : QImage),
      hashInput env a1 b1 = hashInput env a2 b2 →
      (SaveCoverInCache env w1 a1 b1 image1).1 = (SaveCoverInCache env w2 a2 b2 image2).1) ∧
    desktop.toLower (qstr "ab") ≠ desktop.toLower (qstr "a") ∧
    desktop.toLower (qstr "c") ≠ desktop.toLower (qstr "bc") ∧
    hashInput desktop (qstr "ab") (qstr "c") = qstr "abc" ∧
    hashInput desktop (qstr "a") (qstr "bc") = qstr "abc" ∧
    (∀ (w1 w2 : World) (image1 image2 : QImage),
      (SaveCoverInCache desktop w1 (qstr "ab") (qstr "c") image1).1 =
        (SaveCoverInCache desktop w2 (qstr "a") (qstr "bc") image2).1) ∧
    (∀ (w : World) (image1 image2 : QImage),
      lastSaved (SaveCoverInCache desktop w (qstr "ab") (qstr "c") image1).1
        (SaveCoverInCache desktop
          (SaveCoverInCache desktop w (qstr "ab") (qstr "c") image1).2
          (qstr "a") (qstr "bc") image2).2.files = some image2) := by
  have hin : hashInput desktop (qstr "ab") (qstr "c") = hashInput desktop (qstr "a") (qstr "bc") := by
    decide
  have hpath : ∀ (w1 w2 : World) (image1 image2 : QImage),
      (SaveCoverInCache desktop w1 (qstr "ab") (qstr "c") image1).1 =
        (SaveCoverInCache desktop w2 (qstr "a") (qstr "bc") image2).1 := by
    intro w1 w2 image1 image2
    rw [saveCoverInCache_path, saveCoverInCache_path, hin]
  refine ⟨?_, by decide, by decide, by decide, by decide, hpath, ?_⟩
  · intro env w1 w2 a1 b1 a2 b2 image1 image2 h
    rw [saveCoverInCache_path, saveCoverInCache_path, h]
  · intro w image1 image2
    rw [hpath w (SaveCoverInCache desktop w (qstr "ab") (qstr "c") image1).2 image1 image2]
    have : (SaveCoverInCache desktop
          (SaveCoverInCache desktop w (qstr "ab") (qstr "c") image1).2
          (qstr "a") (qstr "bc") image2).2.files =
        ((SaveCoverInCache desktop w (qstr "ab") (qstr "c") image1).2.files ++
          [FileOp.mkdir desktop.imageCacheDir]) ++
          [FileOp.save (SaveCoverInCache desktop
            (SaveCoverInCache desktop w (qstr "ab") (qstr "c") image1).2
            (qstr "a") (qstr "bc") image2).1 image2 (some (qstr "JPG"))] := by
      simp [SaveCoverInCache]
    rw [this]
    exact lastSaved_append_save _ _ _ _

/-- C10 at a fresh world and two images. -/
theorem saveCoverInCache_no_separator_witness :
    (SaveCoverInCache desktop freshWorld (qstr "ab") (qstr "c") coverA).1 =
      (SaveCoverInCache desktop freshWorld (qstr "a") (qstr "bc") coverB).1 :=
  saveCoverInCache_no_separator.1 desktop freshWorld freshWorld (qstr "ab") (qstr "c")
    (qstr "a") (qstr "bc") coverA coverB (by decide)

/-! ## Saving a cover to a file -/

theorem right_append_four (stem : QString) (d c1 c2 c3 : QChar) :
    QString.right (stem ++ [d, c1, c2, c3]) 4 = [d, c1, c2, c3] := by
  simp [QString.right]

theorem right_of_short (s : QString) (n : Nat) (h : s.length ≤ n) : QString.right s n = s := by
  have : s.length - n = 0 := by omega
  simp [QString.right, this]

theorem right_four_split (s : QString) (h : 4 ≤ s.length) :
    ∃ (stem : QString) (d c1 c2 c3 : QChar),
      s = stem ++ [d, c1, c2, c3] ∧ QString.right s 4 = [d, c1, c2, c3] := by
  have hlen : (s.drop (s.length - 4)).length = 4 := by
    rw [List.length_drop]
    omega
  have hs : s = s.take (s.length - 4) ++ s.drop (s.length - 4) :=
    (List.take_append_drop _ s).symm
  match hd : s.drop (s.length - 4), hlen with
  | [d, c1, c2, c3], _ =>
    refine ⟨s.take (s.length - 4), d, c1, c2, c3, ?_, ?_⟩
    · rw [← hd]
      exact hs
    · simp [QString.right, hd]

/-- The test of `SaveCoverToFile` on the chosen name passes exactly when the name
ends in `'.'` and three characters that name a writer, provided no writer is
named by a text that begins with `'.'`. -/
theorem saveFileName_keeps_iff (env : Env) (f : QString)
    (hfmt : ∀ s : QString, s.startsWith kDot = true → env.toUtf8 s ∉ env.supportedImageFormats) :
    ((QString.right f 4).startsWith kDot = true ∧
        env.toUtf8 (QString.right (QString.right f 4) 3) ∈ env.supportedImageFormats) ↔
      ∃ (stem : QString) (c1 c2 c3 : QChar),
        f = stem ++ [kDot, c1, c2, c3] ∧ env.toUtf8 [c1, c2, c3] ∈ env.supportedImageFormats := by
  constructor
  · rintro ⟨hdot, hmem⟩
    by_cases hlen : 4 ≤ f.length
    · obtain ⟨stem, d, c1, c2, c3, hf, hr⟩ := right_four_split f hlen
      rw [hr] at hdot hmem
      have hd : d = kDot := by simpa [QString.startsWith] using hdot
      have h3 : QString.right [d, c1, c2, c3] 3 = [c1, c2, c3] := by simp [QString.right]
      rw [h3] at hmem
      exact ⟨stem, c1, c2, c3, by rw [hf, hd], hmem⟩
    · have h4 : QString.right f 4 = f := right_of_short f 4 (by omega)
      rw [h4] at hdot hmem
      rw [right_of_short f 3 (by omega)] at hmem
      exact absurd hmem (hfmt f hdot)
  · rintro ⟨stem, c1, c2, c3, hf, hmem⟩
    subst hf
    rw [right_append_four]
    refine ⟨by simp [QString.startsWith], ?_⟩
    have h3 : QString.right [kDot, c1, c2, c3] 3 = [c1, c2, c3] := by simp [QString.right]
    rw [h3]
    exact hmem

theorem saveFileName_eq (env : Env) (f : QString) :
    saveFileName env f =
      if (QString.right f 4).startsWith kDot = true ∧
          env.toUtf8 (QString.right (QString.right f 4) 3) ∈ env.supportedImageFormats
      then f else f ++ qstr ".jpg" := by
  unfold saveFileName
  by_cases h1 : (QString.right f 4).startsWith kDot = true <;>
    by_cases h2 : env.toUtf8 (QString.right (QString.right f 4) 3) ∈ env.supportedImageFormats <;>
    simp [h1, h2]

theorem saveFileName_cover (env : Env) : saveFileName env (qstr "cover") = qstr "cover.jpg" := by
  rw [saveFileName_eq]
  have : (QString.right (qstr "cover") 4).startsWith kDot = false := by decide
  rw [if_neg (by simp [this])]
  decide

/-- C8: where no image writer is named by a text beginning with `'.'`,
`SaveCoverToFile` saves the image under the chosen name as it is when the name
ends in `'.'` followed by three characters that name a supported writer format,
and under the chosen name followed by `.jpg` otherwise; the name `cover` gives
`cover.jpg`.  When the dialog is cancelled no file operation is made.  In each
case the song and the backend requests are what they were. -/
theorem saveCoverToFile_written (env : Env) (w : World) (song : Song) (image : QImage)
    (getSaveFileName : QString → Option QString)
    (hfmt : ∀ s : QString, s.startsWith kDot = true → env.toUtf8 s ∉ env.supportedImageFormats) :
    (∀ f : QString,
      getSaveFileName (GetInitialPathForFileDialog env song (initial_file_name env song)) =
        some f →
      ((∃ (stem : QString) (c1 c2 c3 : QChar), f = stem ++ [kDot, c1, c2, c3] ∧
          env.toUtf8 [c1, c2, c3] ∈ env.supportedImageFormats) →
        SaveCoverToFile env w song image getSaveFileName =
          (song, ⟨w.library_, w.files ++ [FileOp.save f image none]⟩)) ∧
      (¬ (∃ (stem : QString) (c1 c2 c3 : QChar), f = stem ++ [kDot, c1, c2, c3] ∧
          env.toUtf8 [c1, c2, c3] ∈ env.supportedImageFormats) →
        SaveCoverToFile env w song image getSaveFileName =
          (song, ⟨w.library_, w.files ++ [FileOp.save (f ++ qstr ".jpg") image none]⟩)) ∧
      (f = qstr "cover" →
        SaveCoverToFile env w song image getSaveFileName =
          (song, ⟨w.library_, w.files ++ [FileOp.save (qstr "cover.jpg") image none]⟩))) ∧
    (getSaveFileName (GetInitialPathForFileDialog env song (initial_file_name env song)) =
        none →
      SaveCoverToFile env w song image getSaveFileName = (song, w)) := by
  constructor
  · intro f hf
    have hiff := saveFileName_keeps_iff env f hfmt
    refine ⟨fun hP => ?_, fun hP => ?_, fun hc => ?_⟩
    · have : saveFileName env f = f := by
        rw [saveFileName_eq, if_pos (hiff.2 hP)]
      simp [SaveCoverToFile, hf, this]
    · have : saveFileName env f = f ++ qstr ".jpg" := by
        rw [saveFileName_eq, if_neg (fun hQ => hP (hiff.1 hQ))]
      simp [SaveCoverToFile, hf, this]
    · subst hc
      simp [SaveCoverToFile, hf, saveFileName_cover]
  · intro hf
    simp [SaveCoverToFile, hf]

theorem desktop_writers (s : QString) (h : s.startsWith kDot = true) :
    desktop.toUtf8 s ∉ desktop.supportedImageFormats := by
  match s, h with
  | c :: rest, h =>
    have hc : c = 46 := by simpa [QString.startsWith, kDot] using h
    subst hc
    have hhead : ∃ tl, desktop.toUtf8 (46 :: rest) = 46 :: tl := by
      cases rest with
      | nil => exact ⟨[], by decide⟩
      | cons lo rest =>
        refine ⟨utf16ToUtf8 (lo :: rest), ?_⟩
        simp [desktop, utf16ToUtf8, utf8OfCodePoint]
    obtain ⟨tl, htl⟩ := hhead
    rw [htl]
    intro hmem
    have hall : ∀ b ∈ desktop.supportedImageFormats, b.head? ≠ some 46 := by decide
    exact hall _ hmem rfl

/-- C8 on the desktop for the chosen names `cover`, `cover.png` and
`cover.jpeg`, and for a cancelled dialog. -/
theorem saveCoverToFile_written_witness :
    SaveCoverToFile desktop freshWorld librarySong coverA (fun _ => some (qstr "cover")) =
      (librarySong, ⟨some [], [FileOp.save (qstr "cover.jpg") coverA none]⟩) ∧
    SaveCoverToFile desktop freshWorld librarySong coverA (fun _ => some (qstr "cover.png")) =
      (librarySong, ⟨some [], [FileOp.save (qstr "cover.png") coverA none]⟩) ∧
    SaveCoverToFile desktop freshWorld librarySong coverA (fun _ => some (qstr "cover.jpeg")) =
      (librarySong, ⟨some [], [FileOp.save (qstr "cover.jpeg.jpg") coverA none]⟩) ∧
    SaveCoverToFile desktop freshWorld librarySong coverA (fun _ => none) =
      (librarySong, freshWorld) := by
  refine ⟨?_, ?_, ?_, ?_⟩
  · exact ((saveCoverToFile_written desktop freshWorld librarySong coverA
      (fun _ => some (qstr "cover")) desktop_writers).1 (qstr "cover") rfl).2.2 rfl
  · exact ((saveCoverToFile_written desktop freshWorld librarySong coverA
      (fun _ => some (qstr "cover.png")) desktop_writers).1 (qstr "cover.png") rfl).1
      ⟨qstr "cover", 112, 110, 103, by decide, by decide⟩
  · exact (((saveCoverToFile_written desktop freshWorld librarySong coverA
      (fun _ => some (qstr "cover.jpeg")) desktop_writers).1 (qstr "cover.jpeg") rfl).2.1
      (fun hP => by
        have h := (saveFileName_keeps_iff desktop (qstr "cover.jpeg") desktop_writers).2 hP
        exact absurd h.1 (by decide))).trans (by decide)
  · exact (saveCoverToFile_written desktop freshWorld librarySong coverA
      (fun _ => none) desktop_writers).2 rfl

/-! ## The path a file dialog starts at -/

theorem joinTail_append (sep : QChar) (xs ys : List QString) :
    joinTail sep (xs ++ ys) = joinTail sep xs ++ joinTail sep ys := by
  induction xs with
  | nil => rfl
  | cons x xs ih => simp [joinTail, ih]

/-- Splitting gives a first field and further fields; the text is the first
field followed by each further field behind a separator. -/
theorem split_join (sep : QChar) (s : QString) :
    ∃ (f : QString) (rest : List QString),
      QString.split sep s = f :: rest ∧ s = f ++ joinTail sep rest := by
  induction s with
  | nil => exact ⟨[], [], rfl, rfl⟩
  | cons c cs ih =>
    obtain ⟨f, rest, hsplit, hjoin⟩ := ih
    by_cases hc : c = sep
    · refine ⟨[], f :: rest, by simp [QString.split, hc, hsplit], ?_⟩
      simp only [joinTail, List.nil_append]
      rw [hc, List.cons_append, ← hjoin]
    · refine ⟨c :: f, rest, by simp [QString.split, hc, hsplit], ?_⟩
      rw [hjoin]
      rfl

theorem split_no_sep (sep : QChar) (s : QString) :
    ∀ f ∈ QString.split sep s, sep ∉ f := by
  induction s with
  | nil => simp [QString.split]
  | cons c cs ih =>
    obtain ⟨f, rest, hsplit, _⟩ := split_join sep cs
    rw [hsplit] at ih
    by_cases hc : c = sep
    · intro g hg
      simp only [QString.split, hc, if_true, hsplit, List.mem_cons] at hg
      rcases hg with rfl | hg
      · simp
      · exact ih g (by simpa using hg)
    · intro g hg
      simp only [QString.split, hc, if_false, hsplit, List.mem_cons] at hg
      rcases hg with rfl | hg
      · have hf := ih f (by simp)
        intro hmem
        rcases List.mem_cons.1 hmem with h | h
        · exact hc h.symm
        · exact hf h
      · exact ih g (by simp [hg])

theorem sectionLoop_tail (sep : QChar) (last : Int) (secs : List QString) :
    ∀ (x : Int) (ret : QString), 1 ≤ x →
      QString.sectionLoop sep 0 last x secs ret =
        ret ++ joinTail sep (secs.take (last + 1 - x).toNat) := by
  induction secs with
  | nil => intro x ret _; simp [QString.sectionLoop, joinTail]
  | cons sec rest ih =>
    intro x ret hx
    by_cases hle : x ≤ last
    · have hx0 : x ≥ 0 := by omega
      have hx1 : x > 0 := by omega
      have hn : (last + 1 - x).toNat = (last + 1 - (x + 1)).toNat + 1 := by omega
      rw [hn]
      simp only [QString.sectionLoop, hle, if_true, hx0, hx1, List.take_succ_cons, joinTail]
      rw [ih (x + 1) _ (by omega)]
      simp
    · have hn : (last + 1 - x).toNat = 0 := by omega
      rw [hn]
      simp [QString.sectionLoop, hle, joinTail]

/-- For a text that contains the separator, `section(sep, 0, -2)` is the text
before its last separator. -/
theorem section_dir (sep : QChar) (s : QString) (h : sep ∈ s) :
    ∃ lastSeg : QString, sep ∉ lastSeg ∧ s = QString.section s sep 0 (-2) ++ sep :: lastSeg := by
  obtain ⟨f, rest, hsplit, hjoin⟩ := split_join sep s
  have hnosep := split_no_sep sep s
  rw [hsplit] at hnosep
  have hrest : rest ≠ [] := by
    intro hnil
    rw [hnil] at hjoin
    have hf := hnosep f (by simp)
    rw [hjoin] at h
    simp [joinTail] at h
    exact hf h
  obtain ⟨init, l, hl⟩ : ∃ init l, rest = init ++ [l] :=
    ⟨rest.dropLast, rest.getLast hrest, (List.dropLast_append_getLast hrest).symm⟩
  refine ⟨l, hnosep l (by simp [hl]), ?_⟩
  have hlen : ((f :: rest).length : Int) = (init.length : Int) + 2 := by
    simp [hl]
    omega
  have hsec : QString.section s sep 0 (-2) = f ++ joinTail sep init := by
    have h1 : QString.section s sep 0 (-2) =
        QString.sectionLoop sep 0 (-2 + ((f :: rest).length : Int)) 0 (f :: rest) [] := by
      simp only [QString.section, hsplit]
      rfl
    rw [h1, hlen]
    have hle : (0 : Int) ≤ -2 + ((init.length : Int) + 2) := by omega
    rw [QString.sectionLoop]
    simp only [hle, if_true, ge_iff_le, le_refl, gt_iff_lt, lt_self_iff_false, if_false,
      List.nil_append]
    rw [sectionLoop_tail sep _ rest (0 + 1) f (by omega)]
    have hn : (-2 + ((init.length : Int) + 2) + 1 - (0 + 1)).toNat = init.length := by omega
    rw [hn, hl]
    simp
  rw [hsec, hjoin, hl, joinTail_append]
  simp [joinTail]

/-- C3: `GetInitialPathForFileDialog` follows a strict priority.  (1) When the
automatic art path is not empty and the song has no embedded cover, the result
is that path, without the file name, whatever the URL.  (2) Otherwise, when the
URL is not empty and its local file contains `/`, the result is the local file
without its last `/` and what follows it, then the file name.  (3) Otherwise
the result is the home path, then the file name. -/
theorem getInitialPath_priority (env : Env) (song : Song) (filename : QString) :
    (song.art_automatic ≠ [] ∧ song.has_embedded_cover = false →
      GetInitialPathForFileDialog env song filename = song.art_automatic) ∧
    (¬ (song.art_automatic ≠ [] ∧ song.has_embedded_cover = false) →
      song.url.isEmpty = false ∧ kSlash ∈ song.url.toLocalFile →
      ∃ dir lastSeg : QString,
        kSlash ∉ lastSeg ∧ song.url.toLocalFile = dir ++ kSlash :: lastSeg ∧
        GetInitialPathForFileDialog env song filename = dir ++ filename) ∧
    (¬ (song.art_automatic ≠ [] ∧ song.has_embedded_cover = false) →
      ¬ (song.url.isEmpty = false ∧ kSlash ∈ song.url.toLocalFile) →
      GetInitialPathForFileDialog env song filename = env.homePath ++ filename) := by
  have hfirst : (!QString.isEmpty song.art_automatic && !song.has_embedded_cover) = true ↔
      (song.art_automatic ≠ [] ∧ song.has_embedded_cover = false) := by
    cases hart : song.art_automatic <;> cases hemb : song.has_embedded_cover <;>
      simp [QString.isEmpty]
  have hsecond : (!song.url.isEmpty && QString.contains song.url.toLocalFile kSlash) = true ↔
      (song.url.isEmpty = false ∧ kSlash ∈ song.url.toLocalFile) := by
    cases hurl : song.url.isEmpty <;> simp [QString.contains]
  refine ⟨fun h1 => ?_, fun h1 h2 => ?_, fun h1 h2 => ?_⟩
  · unfold GetInitialPathForFileDialog
    rw [if_pos (hfirst.2 h1)]
  · obtain ⟨lastSeg, hno, hsplit⟩ := section_dir kSlash song.url.toLocalFile h2.2
    refine ⟨QString.section song.url.toLocalFile kSlash 0 (-2), lastSeg, hno, hsplit, ?_⟩
    unfold GetInitialPathForFileDialog
    rw [if_neg (fun h => h1 (hfirst.1 h)), if_pos (hsecond.2 h2)]
  · unfold GetInitialPathForFileDialog
    rw [if_neg (fun h => h1 (hfirst.1 h)), if_neg (fun h => h2 (hsecond.1 h))]

/-- C3 at a song with automatic art, a song with a local file only, and a song
with neither. -/
theorem getInitialPath_priority_witness :
    GetInitialPathForFileDialog desktop
        { librarySong with art_automatic := qstr "/music/abba/cover.jpg" } (qstr "/Gold.jpg") =
      qstr "/music/abba/cover.jpg" ∧
    (∃ dir lastSeg : QString, kSlash ∉ lastSeg ∧
      qstr "/music/abba/waterloo.mp3" = dir ++ kSlash :: lastSeg ∧
      GetInitialPathForFileDialog desktop librarySong (qstr "/Gold.jpg") =
        dir ++ qstr "/Gold.jpg") ∧
    GetInitialPathForFileDialog desktop { librarySong with url := ⟨true, []⟩ }
        (qstr "/Gold.jpg") =
      qstr "/home/user/Gold.jpg" := by
  refine ⟨?_, ?_, ?_⟩
  · exact (getInitialPath_priority desktop
      { librarySong with art_automatic := qstr "/music/abba/cover.jpg" } (qstr "/Gold.jpg")).1
      (by decide)
  · exact (getInitialPath_priority desktop librarySong (qstr "/Gold.jpg")).2.1
      (by decide) (by decide)
  · exact ((getInitialPath_priority desktop { librarySong with url := ⟨true, []⟩ }
      (qstr "/Gold.jpg")).2.2 (by decide) (by decide)).trans (by decide)

/-- On the desktop, the save dialog for a song in `/music/abba` of the album
`Gold` starts at `/music/abba/Gold.jpg`. -/
theorem getInitialPath_song_folder :
    GetInitialPathForFileDialog desktop librarySong (initial_file_name desktop librarySong) =
      qstr "/music/abba/Gold.jpg" := by
  decide

end Clementine
